import Mathlib

/-!  Verification of the SOS network buffer subsystem (src/sos/src/network.c).

The buffer machinery of network.c (the block guarded by `#if 0`, lines
163-340 of the source) is embedded as pure Lean functions over explicit
state.  Machine integers (`int`, `long`) are modelled as `Int`.  The ring
buffers from `ringbuffer.h` (a header that is not among the sources) are
modelled from the spec as bounded FIFOs over lists.  A failing C `assert`,
and likewise an out-of-bounds array access, is modelled as `none`: the
operation aborts and produces no successor state.  -/

namespace SosNet

/-- The compile-time configuration constants of network.c:
`N_DMA_BUFS`, `N_RX_BUFS`, `N_TX_BUFS`, `BUF_SIZE` (source lines 169-172). -/
structure Config where
  nDmaBufs : Nat
  nRxBufs : Nat
  nTxBufs : Int
  bufSize : Int
deriving DecidableEq, Repr

/-- The constants fixed in the source: 512, 256, 128, 2048. -/
def defaultConfig : Config := ⟨512, 256, 128, 2048⟩

/-- A small configuration (pool capacity 4, tx maximum 2) used for the
concrete scenarios of the spec. -/
def cfgS : Config := ⟨4, 2, 2, 2048⟩

/-- Modelled from the spec: `ringbuffer.h` is not among the sources; the spec
(§3) describes the free pool and the rx queue as bounded FIFOs.  A FIFO is a
list read at the head and written at the tail; `isBufferEmpty` tests
emptiness. -/
def isBufferEmpty {α : Type} (buf : List α) : Bool := buf.isEmpty

/-- Modelled from the spec: fullness test of a bounded FIFO of capacity
`cap` (see `isBufferEmpty`). -/
def isBufferFull {α : Type} (cap : Nat) (buf : List α) : Bool := buf.length == cap

/-- Modelled from the spec: `bufferWrite` appends at the tail of the FIFO;
every write in the source is guarded by an `isBufferFull` assertion. -/
def bufferWrite {α : Type} (x : α) (buf : List α) : List α := buf ++ [x]

/-- An rx completion descriptor, `rx_t` (source lines 176-179): buffer index
and frame length. -/
structure RxT where
  buf_no : Int
  length : Int
deriving DecidableEq, Repr

/-- The state of `static struct { ... } buffers` (source lines 186-198) that
the claims depend on: the free pool FIFO, the rx completion FIFO and the tx
in-flight counter.  The `dma_bufs` array itself holds only DMA addresses; an
access `dma_bufs[i]` with `i` outside `[0, N_DMA_BUFS)` is modelled as an
abort where it occurs. -/
structure Buffers where
  free_pool : List Int
  rx_queue : List RxT
  n_tx_bufs : Int
deriving DecidableEq, Repr

/-- `[0, 1, ..., n-1]` as integers: the indices written to the free pool by
`init_buffers`. -/
def intRange (n : Nat) : List Int := (List.range n).map (Nat.cast : Nat → Int)

/-- `init_buffers` (source lines 222-245): the free pool is filled with the
indices `0 .. N_DMA_BUFS-1` in order, the rx queue starts empty and no tx
buffer is in flight. -/
def init_buffers (cfg : Config) : Buffers :=
  { free_pool := intRange cfg.nDmaBufs, rx_queue := [], n_tx_bufs := 0 }

/-- `alloc_dma_buf` (source lines 201-212): if the free pool FIFO is empty,
return the failure value `-1` and leave the pool unchanged; otherwise pop and
return the head index. -/
def alloc_dma_buf : List Int → Int × List Int
  | [] => (-1, [])
  | h :: t => (h, t)

/-- `free_dma_buf` (source lines 214-220): `assert(buf_no < N_DMA_BUFS)`
(a signed comparison, so negative indices pass), `assert(!isBufferFull(pool))`,
then write `buf_no` to the free pool FIFO.  A failing assert is `none`. -/
def free_dma_buf (cfg : Config) (pool : List Int) (buf_no : Int) : Option (List Int) :=
  if buf_no < (cfg.nDmaBufs : Int) then
    if isBufferFull cfg.nDmaBufs pool then none
    else some (bufferWrite buf_no pool)
  else none

/-- `pico_allocate_rx_buf` (source lines 248-264): reject an oversized
request (`buf_size > BUF_SIZE`) returning no cookie; on pool exhaustion
(`alloc_dma_buf() == -1`) return no cookie; otherwise invalidate the cache
over `dma_bufs[buf_no]` (an array access, hence the bounds guard), hand out
the index as the cookie and return the buffer's physical address. -/
def pico_allocate_rx_buf (cfg : Config) (b : Buffers) (buf_size : Int) :
    Option (Option Int × Buffers) :=
  if cfg.bufSize < buf_size then some (none, b)
  else
    match alloc_dma_buf b.free_pool with
    | (buf_no, pool2) =>
      if buf_no = -1 then some (none, b)
      else if buf_no < 0 ∨ (cfg.nDmaBufs : Int) ≤ buf_no then none
      else some (some buf_no, { b with free_pool := pool2 })

/-- The loop `for i in 0 .. num_bufs-1: free_dma_buf((long) cookies[i])`
of `pico_rx_complete` (source lines 272-274): the i-th iteration reads
`cookies[i]` (out of bounds, hence abort, if the array is shorter than
`num_bufs`) and returns it to the free pool. -/
def free_loop (cfg : Config) : Nat → List Int → List Int → Option (List Int)
  | 0, _, pool => some pool
  | _ + 1, [], _ => none
  | n + 1, c :: cs, pool =>
    match free_dma_buf cfg pool c with
    | none => none
    | some pool2 => free_loop cfg n cs pool2

/-- `pico_rx_complete` (source lines 266-286): a frame spanning more than one
buffer (`num_bufs > 1`) is dropped with a diagnostic and all its buffers are
returned to the pool; otherwise `assert(!isBufferFull(rx_queue))`, then read
`cookies[0]` and `lens[0]` (out of bounds when the arrays are empty) and
enqueue the `(buf_no, length)` descriptor.  Nothing is ever handed to the
stack here; delivery happens only from the rx queue in `pico_eth_poll`. -/
def pico_rx_complete (cfg : Config) (b : Buffers) (num_bufs : Nat)
    (cookies lens : List Int) : Option Buffers :=
  if 1 < num_bufs then
    match free_loop cfg num_bufs cookies b.free_pool with
    | none => none
    | some pool2 => some { b with free_pool := pool2 }
  else
    if isBufferFull cfg.nRxBufs b.rx_queue then none
    else
      match cookies.get? 0, lens.get? 0 with
      | some c0, some l0 =>
          some { b with rx_queue := bufferWrite ⟨c0, l0⟩ b.rx_queue }
      | _, _ => none

/-- `pico_tx_complete` (source lines 288-292): return the cookie's buffer to
the pool and decrement the tx in-flight counter. -/
def pico_tx_complete (cfg : Config) (b : Buffers) (cookie : Int) : Option Buffers :=
  match free_dma_buf cfg b.free_pool cookie with
  | none => none
  | some pool2 => some { b with free_pool := pool2, n_tx_bufs := b.n_tx_bufs - 1 }

/-- `pico_eth_send` (source lines 294-316): reject `len > BUF_SIZE` with 0
bytes sent; reject with 0 bytes sent when the in-flight counter equals
`N_TX_BUFS`; otherwise pop the pool — the `-1` failure value is NOT checked:
the counter is incremented and `dma_bufs[buf_no]` is accessed regardless, so
pool exhaustion reaches `dma_bufs[-1]`, an out-of-bounds access (abort).
`memcpy` with a negative length likewise aborts.  On success the frame is
copied, the cache cleaned, and `len` is returned.  The middle component is
the cookie the transmit hand-off passes to the driver (the `eth_raw_tx` call
is a TODO comment in the source; the spec, §4.3, says the buffer is handed
to the driver's transmit primitive, whose completion calls
`pico_tx_complete` with this cookie). -/
def pico_eth_send (cfg : Config) (b : Buffers) (len : Int) :
    Option (Int × Option Int × Buffers) :=
  if cfg.bufSize < len then some (0, none, b)
  else if b.n_tx_bufs = cfg.nTxBufs then some (0, none, b)
  else
    match alloc_dma_buf b.free_pool with
    | (buf_no, pool2) =>
      if buf_no < 0 ∨ (cfg.nDmaBufs : Int) ≤ buf_no then none
      else if len < 0 then none
      else some (len, some buf_no,
                 { b with free_pool := pool2, n_tx_bufs := b.n_tx_bufs + 1 })

/-- The drain loop of `pico_eth_poll` (source lines 320-335): while the
budget is positive and the rx queue is not empty, pop a descriptor,
invalidate the cache over `dma_bufs[rx.buf_no]` (array access, hence the
bounds guard), deliver the frame to `pico_stack_recv`, return the buffer to
the pool and decrement the budget.  `d` counts the frames delivered to the
stack. -/
def pico_eth_poll_go (cfg : Config) :
    List RxT → List Int → Int → Nat → Option (Int × Nat × List RxT × List Int)
  | [], pool, score, d => some (score, d, [], pool)
  | rx :: rest, pool, score, d =>
    if 0 < score then
      if rx.buf_no < 0 ∨ (cfg.nDmaBufs : Int) ≤ rx.buf_no then none
      else
        match free_dma_buf cfg pool rx.buf_no with
        | none => none
        | some pool2 => pico_eth_poll_go cfg rest pool2 (score - 1) (d + 1)
    else some (score, d, rx :: rest, pool)

/-- `pico_eth_poll` (source lines 318-338): run the drain loop on the rx
queue and return the remaining budget, the number of frames delivered to the
stack, and the updated state. -/
def pico_eth_poll (cfg : Config) (b : Buffers) (loop_score : Int) :
    Option (Int × Nat × Buffers) :=
  match pico_eth_poll_go cfg b.rx_queue b.free_pool loop_score 0 with
  | none => none
  | some (score2, d, q2, pool2) =>
      some (score2, d, { b with rx_queue := q2, free_pool := pool2 })

/-- Iterated `alloc_dma_buf`: the list of returned handles (including any
`-1` failure values) and the final pool. -/
def allocN : Nat → List Int → List Int × List Int
  | 0, pool => ([], pool)
  | k + 1, pool =>
    match alloc_dma_buf pool with
    | (h, pool2) =>
      match allocN k pool2 with
      | (hs, pool3) => (h :: hs, pool3)

/-! ### Inversion lemmas for the embedded operations -/

lemma free_dma_buf_some {cfg : Config} {pool : List Int} {c : Int} {pool2 : List Int}
    (h : free_dma_buf cfg pool c = some pool2) :
    pool2 = pool ++ [c] ∧ c < (cfg.nDmaBufs : Int) ∧ pool.length ≠ cfg.nDmaBufs := by
  unfold free_dma_buf at h
  split at h
  case isTrue hc =>
    split at h
    case isTrue hfull => exact absurd h (by simp)
    case isFalse hfull =>
      simp only [bufferWrite, Option.some.injEq] at h
      refine ⟨h.symm, hc, ?_⟩
      simpa [isBufferFull] using hfull
  case isFalse hc => exact absurd h (by simp)

lemma free_dma_buf_eq {cfg : Config} {pool : List Int} {c : Int}
    (hc : c < (cfg.nDmaBufs : Int)) (hlen : pool.length ≠ cfg.nDmaBufs) :
    free_dma_buf cfg pool c = some (pool ++ [c]) := by
  simp [free_dma_buf, isBufferFull, bufferWrite, hc, hlen]

lemma free_loop_some {cfg : Config} : ∀ (n : Nat) (cs pool pool2 : List Int),
    free_loop cfg n cs pool = some pool2 → pool2 = pool ++ cs.take n := by
  intro n
  induction n with
  | zero =>
    intro cs pool pool2 h
    simp only [free_loop, Option.some.injEq] at h
    simp [h.symm]
  | succ k ih =>
    intro cs pool pool2 h
    cases cs with
    | nil => exact absurd h (by simp [free_loop])
    | cons c cs2 =>
      simp only [free_loop] at h
      cases hf : free_dma_buf cfg pool c with
      | none => rw [hf] at h; exact absurd h (by simp)
      | some pool1 =>
        rw [hf] at h
        obtain ⟨h1, _, _⟩ := free_dma_buf_some hf
        have h2 := ih cs2 pool1 pool2 h
        simp [h2, h1, List.append_assoc]

lemma free_loop_complete {cfg : Config} : ∀ (cs pool : List Int),
    (∀ c ∈ cs, c < (cfg.nDmaBufs : Int)) →
    pool.length + cs.length ≤ cfg.nDmaBufs →
    free_loop cfg cs.length cs pool = some (pool ++ cs) := by
  intro cs
  induction cs with
  | nil => intro pool _ _; simp [free_loop]
  | cons c cs2 ih =>
    intro pool hin hlen
    rw [List.length_cons] at hlen
    have hc : c < (cfg.nDmaBufs : Int) := hin c (by simp)
    have hne : pool.length ≠ cfg.nDmaBufs := by omega
    simp only [List.length_cons, free_loop, free_dma_buf_eq hc hne]
    have := ih (pool ++ [c]) (fun x hx => hin x (by simp [hx]))
      (by simp only [List.length_append, List.length_singleton]; omega)
    simp only [this, List.append_assoc, List.singleton_append]

lemma pico_allocate_rx_buf_some {cfg : Config} {b : Buffers} {sz c : Int} {b2 : Buffers}
    (h : pico_allocate_rx_buf cfg b sz = some (some c, b2)) :
    b.free_pool = c :: b2.free_pool ∧ b2.rx_queue = b.rx_queue
    ∧ b2.n_tx_bufs = b.n_tx_bufs ∧ 0 ≤ c ∧ c < (cfg.nDmaBufs : Int) := by
  unfold pico_allocate_rx_buf at h
  split at h
  · exact absurd h (by simp)
  · cases hp : b.free_pool with
    | nil =>
      rw [hp] at h
      simp [alloc_dma_buf] at h
    | cons hd tl =>
      rw [hp] at h
      simp only [alloc_dma_buf] at h
      split at h
      · exact absurd h (by simp)
      · split at h
        case isTrue hoob => exact absurd h (by simp)
        case isFalse hoob =>
          push_neg at hoob
          simp only [Option.some.injEq, Prod.mk.injEq] at h
          obtain ⟨hc, hb2⟩ := h
          cases hc
          cases hb2
          exact ⟨rfl, rfl, rfl, hoob.1, hoob.2⟩

lemma pico_rx_complete_some {cfg : Config} {b : Buffers} {n : Nat}
    {cookies lens : List Int} {b2 : Buffers}
    (h : pico_rx_complete cfg b n cookies lens = some b2) :
    (1 < n ∧ b2.free_pool = b.free_pool ++ cookies.take n
      ∧ b2.rx_queue = b.rx_queue ∧ b2.n_tx_bufs = b.n_tx_bufs) ∨
    (¬ 1 < n ∧ ∃ c0 l0, cookies.get? 0 = some c0 ∧ lens.get? 0 = some l0
      ∧ b2.free_pool = b.free_pool ∧ b2.rx_queue = b.rx_queue ++ [⟨c0, l0⟩]
      ∧ b2.n_tx_bufs = b.n_tx_bufs ∧ b.rx_queue.length ≠ cfg.nRxBufs) := by
  unfold pico_rx_complete at h
  split at h
  case isTrue hn =>
    left
    cases hf : free_loop cfg n cookies b.free_pool with
    | none => rw [hf] at h; exact absurd h (by simp)
    | some pool2 =>
      rw [hf] at h
      simp only [Option.some.injEq] at h
      have := free_loop_some n cookies b.free_pool pool2 hf
      rw [← h]
      exact ⟨hn, this, rfl, rfl⟩
  case isFalse hn =>
    right
    split at h
    case isTrue hfull => exact absurd h (by simp)
    case isFalse hfull =>
      refine ⟨hn, ?_⟩
      cases hc0 : cookies.get? 0 with
      | none => rw [hc0] at h; exact absurd h (by simp)
      | some c0 =>
        cases hl0 : lens.get? 0 with
        | none => rw [hc0, hl0] at h; exact absurd h (by simp)
        | some l0 =>
          rw [hc0, hl0] at h
          simp only [bufferWrite, Option.some.injEq] at h
          cases h
          refine ⟨c0, l0, rfl, rfl, rfl, rfl, rfl, ?_⟩
          · simpa [isBufferFull] using hfull

lemma pico_tx_complete_some {cfg : Config} {b : Buffers} {c : Int} {b2 : Buffers}
    (h : pico_tx_complete cfg b c = some b2) :
    b2.free_pool = b.free_pool ++ [c] ∧ b2.rx_queue = b.rx_queue
    ∧ b2.n_tx_bufs = b.n_tx_bufs - 1 := by
  unfold pico_tx_complete at h
  cases hf : free_dma_buf cfg b.free_pool c with
  | none => rw [hf] at h; exact absurd h (by simp)
  | some pool2 =>
    rw [hf] at h
    simp only [Option.some.injEq] at h
    obtain ⟨h1, _, _⟩ := free_dma_buf_some hf
    rw [← h]
    exact ⟨h1, rfl, rfl⟩

lemma pico_eth_send_some {cfg : Config} {b : Buffers} {len r : Int}
    {ck : Option Int} {b2 : Buffers}
    (h : pico_eth_send cfg b len = some (r, ck, b2)) :
    (ck = none ∧ r = 0 ∧ b2 = b) ∨
    (∃ hd, ck = some hd ∧ b.free_pool = hd :: b2.free_pool
      ∧ b2.rx_queue = b.rx_queue ∧ b2.n_tx_bufs = b.n_tx_bufs + 1
      ∧ 0 ≤ hd ∧ hd < (cfg.nDmaBufs : Int)
      ∧ b.n_tx_bufs ≠ cfg.nTxBufs ∧ r = len ∧ 0 ≤ len) := by
  unfold pico_eth_send at h
  split at h
  · left
    simp only [Option.some.injEq, Prod.mk.injEq] at h
    exact ⟨h.2.1.symm, h.1.symm, h.2.2.symm⟩
  · split at h
    · left
      simp only [Option.some.injEq, Prod.mk.injEq] at h
      exact ⟨h.2.1.symm, h.1.symm, h.2.2.symm⟩
    case isFalse hcnt =>
      right
      cases hp : b.free_pool with
      | nil =>
        rw [hp] at h
        simp [alloc_dma_buf] at h
      | cons hd tl =>
        rw [hp] at h
        simp only [alloc_dma_buf] at h
        split at h
        case isTrue hoob => exact absurd h (by simp)
        case isFalse hoob =>
          split at h
          case isTrue hneg => exact absurd h (by simp)
          case isFalse hneg =>
            push_neg at hoob
            simp only [Option.some.injEq, Prod.mk.injEq] at h
            obtain ⟨hr, hck, hb2⟩ := h
            cases hr
            cases hck
            cases hb2
            exact ⟨hd, rfl, rfl, rfl, rfl, hoob.1, hoob.2, hcnt, rfl, by omega⟩

lemma pico_eth_poll_go_owners {cfg : Config} :
    ∀ (q : List RxT) (pool : List Int) (score : Int) (d : Nat)
      (score2 : Int) (d2 : Nat) (q2 : List RxT) (pool2 : List Int),
    pico_eth_poll_go cfg q pool score d = some (score2, d2, q2, pool2) →
    (pool2 : Multiset Int) + (q2.map RxT.buf_no : Multiset Int)
      = (pool : Multiset Int) + (q.map RxT.buf_no : Multiset Int) := by
  intro q
  induction q with
  | nil =>
    intro pool score d s2 d2 q2 pool2 h
    simp only [pico_eth_poll_go, Option.some.injEq, Prod.mk.injEq] at h
    obtain ⟨_, _, hq, hp⟩ := h
    rw [← hq, ← hp]
  | cons rx rest ih =>
    intro pool score d s2 d2 q2 pool2 h
    simp only [pico_eth_poll_go] at h
    split at h
    case isTrue hs =>
      split at h
      case isTrue hoob => exact absurd h (by simp)
      case isFalse hoob =>
        cases hf : free_dma_buf cfg pool rx.buf_no with
        | none => rw [hf] at h; exact absurd h (by simp)
        | some pool1 =>
          rw [hf] at h
          obtain ⟨h1, _, _⟩ := free_dma_buf_some hf
          have h2 := ih pool1 (score - 1) (d + 1) s2 d2 q2 pool2 h
          rw [h2, h1, List.map_cons, Multiset.coe_add, Multiset.coe_add,
            List.append_assoc, List.singleton_append]
    case isFalse hs =>
      simp only [Option.some.injEq, Prod.mk.injEq] at h
      obtain ⟨_, _, hq, hp⟩ := h
      rw [← hq, ← hp]

lemma pico_eth_poll_go_spec {cfg : Config} :
    ∀ (q : List RxT) (pool : List Int) (score : Int) (d : Nat),
    0 ≤ score →
    (∀ rx ∈ q, 0 ≤ rx.buf_no ∧ rx.buf_no < (cfg.nDmaBufs : Int)) →
    pool.length + q.length ≤ cfg.nDmaBufs →
    pico_eth_poll_go cfg q pool score d =
      some (score - (min score.toNat q.length : Nat), d + min score.toNat q.length,
            q.drop (min score.toNat q.length),
            pool ++ (q.take (min score.toNat q.length)).map RxT.buf_no) := by
  intro q
  induction q with
  | nil =>
    intro pool score d hs _ _
    simp [pico_eth_poll_go]
  | cons rx rest ih =>
    intro pool score d hs hin hlen
    rw [List.length_cons] at hlen
    simp only [pico_eth_poll_go]
    by_cases h0 : 0 < score
    · rw [if_pos h0]
      have hb := hin rx (by simp)
      rw [if_neg (by push_neg; exact hb)]
      rw [free_dma_buf_eq hb.2 (by omega)]
      show pico_eth_poll_go cfg rest (pool ++ [rx.buf_no]) (score - 1) (d + 1) = _
      rw [ih (pool ++ [rx.buf_no]) (score - 1) (d + 1) (by omega)
        (fun x hx => hin x (by simp [hx]))
        (by simp only [List.length_append, List.length_singleton]; omega)]
      have hM : min score.toNat (rx :: rest).length
          = min (score - 1).toNat rest.length + 1 := by
        simp only [List.length_cons]; omega
      rw [hM, List.drop_succ_cons, List.take_succ_cons, List.map_cons]
      simp only [Option.some.injEq, Prod.mk.injEq]
      refine ⟨by push_cast; ring, by omega, trivial, ?_⟩
      rw [List.append_assoc, List.singleton_append]
    · rw [if_neg h0]
      have hz : score = 0 := by omega
      subst hz
      simp

lemma pico_eth_poll_some_fields {cfg : Config} {b : Buffers} {score score2 : Int}
    {d : Nat} {b2 : Buffers}
    (h : pico_eth_poll cfg b score = some (score2, d, b2)) :
    (b2.free_pool : Multiset Int) + (b2.rx_queue.map RxT.buf_no : Multiset Int)
      = (b.free_pool : Multiset Int) + (b.rx_queue.map RxT.buf_no : Multiset Int)
    ∧ b2.n_tx_bufs = b.n_tx_bufs := by
  unfold pico_eth_poll at h
  cases hg : pico_eth_poll_go cfg b.rx_queue b.free_pool score 0 with
  | none => rw [hg] at h; exact absurd h (by simp)
  | some out =>
    obtain ⟨s2, d2, q2, pool2⟩ := out
    rw [hg] at h
    simp only [Option.some.injEq, Prod.mk.injEq] at h
    obtain ⟨_, _, hb2⟩ := h
    have hown := pico_eth_poll_go_owners b.rx_queue b.free_pool score 0 s2 d2 q2 pool2 hg
    cases hb2
    exact ⟨hown, rfl⟩

/-! ### The transition system driven by the environment

The driver and the stack drive the subsystem through the five entry points.
The ghost components `rxOwned` and `txInFlight` record which buffer indices
are currently held by the device: `rxOwned` the cookies handed out by
`pico_allocate_rx_buf`, `txInFlight` the cookies handed to the transmit
primitive by `pico_eth_send` (the hand-off itself is a TODO comment in the
source; the spec, §4.3, defines it).  The environment precondition on the
completion callbacks is that a completion only ever reports cookies the
device actually holds — each exactly once. -/

structure SysState where
  bufs : Buffers
  rxOwned : List Int
  txInFlight : List Int
deriving DecidableEq, Repr

/-- The ownership multiset of a system state: every buffer index, counted
once for each ownership record that holds it (free pool, tx in flight,
device-held rx, queued for the stack). -/
def owners (s : SysState) : Multiset Int :=
  (s.bufs.free_pool : Multiset Int) + (s.txInFlight : Multiset Int)
    + (s.rxOwned : Multiset Int) + (s.bufs.rx_queue.map RxT.buf_no : Multiset Int)

/-- The state after `init_buffers`: all indices free, nothing held. -/
def initState (cfg : Config) : SysState := ⟨init_buffers cfg, [], []⟩

/-- One externally driven operation.  A constructor only applies when the
operation runs to completion (result `some _`): a failing assert or an
out-of-bounds access aborts the program and yields no successor state. -/
inductive Step (cfg : Config) : SysState → SysState → Prop
  | allocRx (s : SysState) (sz c : Int) (b2 : Buffers) :
      pico_allocate_rx_buf cfg s.bufs sz = some (some c, b2) →
      Step cfg s ⟨b2, s.rxOwned ++ [c], s.txInFlight⟩
  | rxComplete (s : SysState) (n : Nat) (cookies lens : List Int)
      (rx2 : List Int) (b2 : Buffers) :
      cookies.length = n →
      (s.rxOwned : Multiset Int) = (rx2 : Multiset Int) + (cookies : Multiset Int) →
      pico_rx_complete cfg s.bufs n cookies lens = some b2 →
      Step cfg s ⟨b2, rx2, s.txInFlight⟩
  | txComplete (s : SysState) (c : Int) (tx2 : List Int) (b2 : Buffers) :
      (s.txInFlight : Multiset Int) = (tx2 : Multiset Int) + {c} →
      pico_tx_complete cfg s.bufs c = some b2 →
      Step cfg s ⟨b2, s.rxOwned, tx2⟩
  | send (s : SysState) (len r : Int) (ck : Option Int) (b2 : Buffers) :
      pico_eth_send cfg s.bufs len = some (r, ck, b2) →
      Step cfg s ⟨b2, s.rxOwned, s.txInFlight ++ ck.toList⟩
  | poll (s : SysState) (score score2 : Int) (d : Nat) (b2 : Buffers) :
      pico_eth_poll cfg s.bufs score = some (score2, d, b2) →
      Step cfg s ⟨b2, s.rxOwned, s.txInFlight⟩

/-- The states reachable from device initialisation by any sequence of
operations. -/
inductive Reachable (cfg : Config) : SysState → Prop
  | init : Reachable cfg (initState cfg)
  | step (s s2 : SysState) : Reachable cfg s → Step cfg s s2 → Reachable cfg s2

/-- The buffer-ownership invariant: every index `0 .. N_DMA_BUFS-1` is held
by exactly one owner; the tx in-flight counter counts exactly the buffers
handed to transmit and never exceeds `N_TX_BUFS`. -/
def Inv (cfg : Config) (s : SysState) : Prop :=
  owners s = (intRange cfg.nDmaBufs : Multiset Int)
  ∧ s.bufs.n_tx_bufs = s.txInFlight.length
  ∧ s.bufs.n_tx_bufs ≤ cfg.nTxBufs

lemma init_inv {cfg : Config} (hcfg : 0 ≤ cfg.nTxBufs) : Inv cfg (initState cfg) := by
  refine ⟨?_, rfl, hcfg⟩
  simp [owners, initState, init_buffers]

lemma step_preserves {cfg : Config} {s s2 : SysState}
    (hInv : Inv cfg s) (hstep : Step cfg s s2) : Inv cfg s2 := by
  obtain ⟨hO, hN, hB⟩ := hInv
  cases hstep with
  | allocRx sz c b2 h =>
    obtain ⟨hpool, hq, hn, _, _⟩ := pico_allocate_rx_buf_some h
    refine ⟨?_, by simpa [hn] using hN, by simpa [hn] using hB⟩
    rw [← hO]
    simp only [owners, hq, hpool, List.map_append, List.map_cons, List.map_nil,
      ← Multiset.coe_add, ← Multiset.cons_coe, ← Multiset.singleton_add,
      Multiset.coe_singleton, Multiset.coe_nil, add_zero, zero_add]
    abel
  | rxComplete n cookies lens rx2 b2 hlen hrem h =>
    rcases pico_rx_complete_some h with ⟨hn, hpool, hq, htx⟩ |
      ⟨hn, c0, l0, hc0, _, hpool, hq, htx, _⟩
    · refine ⟨?_, by simpa [htx] using hN, by simpa [htx] using hB⟩
      rw [← hO]
      have htake : cookies.take n = cookies := by rw [← hlen]; exact List.take_length _
      simp only [owners, hq, hpool, htake, hrem, List.map_append, List.map_cons,
        List.map_nil, ← Multiset.coe_add, ← Multiset.cons_coe, ← Multiset.singleton_add,
        Multiset.coe_singleton, Multiset.coe_nil, add_zero, zero_add]
      abel
    · have hck : cookies = [c0] := by
        cases cookies with
        | nil => simp at hc0
        | cons a t =>
          simp only [List.get?_cons_zero, Option.some.injEq] at hc0
          cases hc0
          cases t with
          | nil => rfl
          | cons e t2 => simp at hlen; omega
      subst hck
      refine ⟨?_, by simpa [htx] using hN, by simpa [htx] using hB⟩
      rw [← hO]
      simp only [owners, hq, hpool, hrem, List.map_append, List.map_cons,
        List.map_nil, ← Multiset.coe_add, ← Multiset.cons_coe, ← Multiset.singleton_add,
        Multiset.coe_singleton, Multiset.coe_nil, add_zero, zero_add]
      abel
  | txComplete c tx2 b2 hrem h =>
    obtain ⟨hpool, hq, htx⟩ := pico_tx_complete_some h
    have hcard : s.txInFlight.length = tx2.length + 1 := by
      have := congrArg Multiset.card hrem
      simpa [Multiset.coe_card] using this
    refine ⟨?_, by rw [htx, hN, hcard]; push_cast; ring, by rw [htx]; omega⟩
    rw [← hO]
    simp only [owners, hq, hpool, hrem, List.map_append, List.map_cons,
      List.map_nil, ← Multiset.coe_add, ← Multiset.cons_coe, ← Multiset.singleton_add,
      Multiset.coe_singleton, Multiset.coe_nil, add_zero, zero_add]
    abel
  | send len r ck b2 h =>
    rcases pico_eth_send_some h with ⟨hck, _, hb2⟩ |
      ⟨hd, hck, hpool, hq, htx, _, _, hcnt, _, _⟩
    · subst hck hb2
      refine ⟨?_, by simpa using hN, by simpa using hB⟩
      simpa [owners] using hO
    · subst hck
      refine ⟨?_, ?_, ?_⟩
      · rw [← hO]
        simp only [owners, hq, hpool, Option.toList_some, List.map_append,
          List.map_cons, List.map_nil, ← Multiset.coe_add, ← Multiset.cons_coe,
          ← Multiset.singleton_add, Multiset.coe_singleton, Multiset.coe_nil,
          add_zero, zero_add]
        abel
      · rw [htx, hN]
        simp only [Option.toList_some, List.length_append, List.length_singleton]
        push_cast; ring
      · rw [htx]; omega
  | poll score score2 d b2 h =>
    obtain ⟨hown, htx⟩ := pico_eth_poll_some_fields h
    refine ⟨?_, by simpa [htx] using hN, by simpa [htx] using hB⟩
    rw [← hO]
    show (b2.free_pool : Multiset Int) + (s.txInFlight : Multiset Int)
        + (s.rxOwned : Multiset Int) + (b2.rx_queue.map RxT.buf_no : Multiset Int)
      = (s.bufs.free_pool : Multiset Int) + (s.txInFlight : Multiset Int)
        + (s.rxOwned : Multiset Int) + (s.bufs.rx_queue.map RxT.buf_no : Multiset Int)
    calc (b2.free_pool : Multiset Int) + (s.txInFlight : Multiset Int)
        + (s.rxOwned : Multiset Int) + (b2.rx_queue.map RxT.buf_no : Multiset Int)
        = ((b2.free_pool : Multiset Int) + (b2.rx_queue.map RxT.buf_no : Multiset Int))
          + ((s.txInFlight : Multiset Int) + (s.rxOwned : Multiset Int)) := by abel
      _ = ((s.bufs.free_pool : Multiset Int)
            + (s.bufs.rx_queue.map RxT.buf_no : Multiset Int))
          + ((s.txInFlight : Multiset Int) + (s.rxOwned : Multiset Int)) := by rw [hown]
      _ = (s.bufs.free_pool : Multiset Int) + (s.txInFlight : Multiset Int)
          + (s.rxOwned : Multiset Int)
          + (s.bufs.rx_queue.map RxT.buf_no : Multiset Int) := by abel

lemma reachable_inv {cfg : Config} (hcfg : 0 ≤ cfg.nTxBufs) {s : SysState}
    (h : Reachable cfg s) : Inv cfg s := by
  induction h with
  | init => exact init_inv hcfg
  | step s s2 _ hstep ih => exact step_preserves ih hstep

/-! ### Helper lemmas for the allocation scenarios -/

lemma allocN_length : ∀ (l : List Int), allocN l.length l = (l, []) := by
  intro l
  induction l with
  | nil => rfl
  | cons h t ih => simp [List.length_cons, allocN, alloc_dma_buf, ih]

lemma intRange_length (n : Nat) : (intRange n).length = n := by
  rw [intRange, List.length_map, List.length_range]

lemma intRange_nodup (n : Nat) : (intRange n).Nodup := by
  rw [intRange]
  exact (List.nodup_range n).map Nat.cast_injective

/-! ### The claims -/

/-- C1: in every reachable state of the buffer subsystem — any sequence of
init, rx-buffer allocation, receive completion, send, tx completion and poll
— every buffer index `0 .. N_DMA_BUFS-1` is held by exactly one owner (free
pool, allocated for tx in flight, owned by the device for rx, or queued for
the stack), so the number of buffers allocated out of the pool plus the
number on the free list equals the pool capacity `N_DMA_BUFS`. -/
theorem claim_C1_buffer_conservation (cfg : Config) (hcfg : 0 ≤ cfg.nTxBufs)
    (s : SysState) (h : Reachable cfg s) :
    owners s = (intRange cfg.nDmaBufs : Multiset Int)
    ∧ s.bufs.free_pool.length
        + (s.txInFlight.length + s.rxOwned.length + s.bufs.rx_queue.length)
        = cfg.nDmaBufs := by
  have hI := reachable_inv hcfg h
  refine ⟨hI.1, ?_⟩
  have hc := congrArg Multiset.card hI.1
  simp only [owners, Multiset.card_add, Multiset.coe_card, List.length_map] at hc
  rw [intRange_length] at hc
  omega

/-- Witness for C1: the freshly initialised state at the small
configuration. -/
theorem claim_C1_buffer_conservation_witness :
    (0 ≤ cfgS.nTxBufs ∧ Reachable cfgS (initState cfgS))
    ∧ (owners (initState cfgS) = (intRange cfgS.nDmaBufs : Multiset Int)
      ∧ (initState cfgS).bufs.free_pool.length
          + ((initState cfgS).txInFlight.length + (initState cfgS).rxOwned.length
            + (initState cfgS).bufs.rx_queue.length)
          = cfgS.nDmaBufs) :=
  ⟨⟨by decide, Reachable.init⟩,
   claim_C1_buffer_conservation cfgS (by decide) _ Reachable.init⟩

/-- C2 (code bug): when the free pool is empty while the length and counter
guards pass, `pico_eth_send` does not return 0 bytes sent with the pool and
counter unchanged, as the spec requires: the `-1` failure value of
`alloc_dma_buf` is never checked, the counter is incremented and
`dma_bufs[-1]` is accessed out of bounds, so the call aborts (`none`) rather
than evaluating to `some (0, none, b)`. -/
theorem claim_C2_alloc_failure_unchecked :
    pico_eth_send defaultConfig ⟨[], [], 0⟩ 100 = none
    ∧ pico_eth_send defaultConfig ⟨[], [], 0⟩ 100
        ≠ some (0, none, (⟨[], [], 0⟩ : Buffers)) :=
  ⟨by decide, by decide⟩

/-- The concrete state of the C3 counterexample: completion-queue capacity 1,
queue full with buffer 0, buffer 1 held by the device. -/
def cfgC3 : Config := ⟨4, 1, 2, 2048⟩

/-- See `cfgC3`: free list `[2, 3]`, rx queue full. -/
def bC3 : Buffers := ⟨[2, 3], [⟨0, 10⟩], 0⟩

/-- C3 counterexample: a receive completion arriving with the completion
queue at capacity does NOT drop the frame and release its buffer back to the
pool with the queued entries intact — `pico_rx_complete` hits
`assert(!isBufferFull(rx_queue))` and aborts (`none`). -/
theorem claim_C3_counterexample :
    pico_rx_complete cfgC3 bC3 1 [1] [5] = none
    ∧ pico_rx_complete cfgC3 bC3 1 [1] [5]
        ≠ some { bC3 with free_pool := bC3.free_pool ++ [1] } :=
  ⟨by decide, by decide⟩

/-- C3 (amended): a receive completion that arrives while the completion
queue is at capacity fails the assertion guarding the enqueue and aborts;
the incoming buffer is not released and nothing is enqueued — the
drop-and-release policy of the spec is not implemented. -/
theorem claim_C3_queue_full_asserts (cfg : Config) (b : Buffers) (n : Nat)
    (cookies lens : List Int) (hn : ¬ 1 < n)
    (hfull : isBufferFull cfg.nRxBufs b.rx_queue = true) :
    pico_rx_complete cfg b n cookies lens = none := by
  unfold pico_rx_complete
  rw [if_neg hn, if_pos hfull]

/-- Witness for the amended C3 at the concrete full-queue state. -/
theorem claim_C3_queue_full_asserts_witness :
    (¬ 1 < 1 ∧ isBufferFull cfgC3.nRxBufs bC3.rx_queue = true)
    ∧ pico_rx_complete cfgC3 bC3 1 [2] [5] = none :=
  ⟨⟨by decide, by decide⟩,
   claim_C3_queue_full_asserts cfgC3 bC3 1 [2] [5] (by decide) (by decide)⟩

/-- C4: a send whose length strictly exceeds `BUF_SIZE` returns 0 bytes
sent, hands nothing to the driver, and leaves the state — hence the pool's
free count — unchanged (no buffer is allocated). -/
theorem claim_C4_oversized_send (cfg : Config) (b : Buffers) (len : Int)
    (h : cfg.bufSize < len) :
    pico_eth_send cfg b len = some (0, none, b) := by
  unfold pico_eth_send
  rw [if_pos h]

/-- Witness for C4: a 5000-byte frame against the 2048-byte buffers. -/
theorem claim_C4_oversized_send_witness :
    defaultConfig.bufSize < 5000
    ∧ pico_eth_send defaultConfig (init_buffers defaultConfig) 5000
        = some (0, none, init_buffers defaultConfig) :=
  ⟨by decide, claim_C4_oversized_send defaultConfig (init_buffers defaultConfig) 5000 (by decide)⟩

/-- C5: in every reachable state the tx in-flight counter is never negative,
never exceeds `N_TX_BUFS`, and counts exactly the buffers handed to the
transmit primitive (incremented on accepted sends, decremented on tx
completions).  Concretely, with maximum 2: two sends succeed, a third
returns 0 bytes sent, and after one tx completion a further send succeeds. -/
theorem claim_C5_tx_counter (cfg : Config) (hcfg : 0 ≤ cfg.nTxBufs)
    (s : SysState) (h : Reachable cfg s) :
    (0 ≤ s.bufs.n_tx_bufs ∧ s.bufs.n_tx_bufs ≤ cfg.nTxBufs
      ∧ s.bufs.n_tx_bufs = s.txInFlight.length)
    ∧ (pico_eth_send cfgS (init_buffers cfgS) 100
        = some (100, some 0, (⟨[1, 2, 3], [], 1⟩ : Buffers))
      ∧ pico_eth_send cfgS ⟨[1, 2, 3], [], 1⟩ 100
          = some (100, some 1, (⟨[2, 3], [], 2⟩ : Buffers))
      ∧ pico_eth_send cfgS ⟨[2, 3], [], 2⟩ 100
          = some (0, none, (⟨[2, 3], [], 2⟩ : Buffers))
      ∧ pico_tx_complete cfgS ⟨[2, 3], [], 2⟩ 0 = some ⟨[2, 3, 0], [], 1⟩
      ∧ pico_eth_send cfgS ⟨[2, 3, 0], [], 1⟩ 100
          = some (100, some 2, (⟨[3, 0], [], 2⟩ : Buffers))) := by
  have hI := reachable_inv hcfg h
  refine ⟨⟨?_, hI.2.2, hI.2.1⟩, by decide⟩
  rw [hI.2.1]
  exact Int.natCast_nonneg _

/-- Witness for C5: the freshly initialised state at the small
configuration (tx maximum 2). -/
theorem claim_C5_tx_counter_witness :
    (0 ≤ cfgS.nTxBufs ∧ Reachable cfgS (initState cfgS))
    ∧ (0 ≤ (initState cfgS).bufs.n_tx_bufs
      ∧ (initState cfgS).bufs.n_tx_bufs ≤ cfgS.nTxBufs
      ∧ (initState cfgS).bufs.n_tx_bufs = (initState cfgS).txInFlight.length) :=
  ⟨⟨by decide, Reachable.init⟩,
   (claim_C5_tx_counter cfgS (by decide) _ Reachable.init).1⟩

/-- C6: for every non-negative budget, poll dispatches
`min budget (queued frames)` frames to the stack callback and returns
`budget - framesProcessed`; with a zero budget or an empty queue this is the
budget unchanged.  Concretely: with 5 frames queued, `poll 3` dispatches 3
and returns 0, and a following `poll 5` dispatches the remaining 2 and
returns 3. -/
theorem claim_C6_poll_budget (cfg : Config) (b : Buffers) (budget : Int)
    (hb : 0 ≤ budget)
    (hq : ∀ rx ∈ b.rx_queue, 0 ≤ rx.buf_no ∧ rx.buf_no < (cfg.nDmaBufs : Int))
    (hlen : b.free_pool.length + b.rx_queue.length ≤ cfg.nDmaBufs) :
    (pico_eth_poll cfg b budget =
      some (budget - (min budget.toNat b.rx_queue.length : Nat),
            min budget.toNat b.rx_queue.length,
            { b with
                rx_queue := b.rx_queue.drop (min budget.toNat b.rx_queue.length),
                free_pool := b.free_pool
                  ++ (b.rx_queue.take (min budget.toNat b.rx_queue.length)).map
                      RxT.buf_no }))
    ∧ (pico_eth_poll (⟨8, 8, 8, 2048⟩ : Config)
          ⟨[5, 6, 7], [⟨0, 10⟩, ⟨1, 10⟩, ⟨2, 10⟩, ⟨3, 10⟩, ⟨4, 10⟩], 0⟩ 3
        = some (0, 3, (⟨[5, 6, 7, 0, 1, 2], [⟨3, 10⟩, ⟨4, 10⟩], 0⟩ : Buffers))
      ∧ pico_eth_poll (⟨8, 8, 8, 2048⟩ : Config)
          ⟨[5, 6, 7, 0, 1, 2], [⟨3, 10⟩, ⟨4, 10⟩], 0⟩ 5
        = some (3, 2, (⟨[5, 6, 7, 0, 1, 2, 3, 4], [], 0⟩ : Buffers))) := by
  refine ⟨?_, by decide⟩
  unfold pico_eth_poll
  rw [pico_eth_poll_go_spec b.rx_queue b.free_pool budget 0 hb hq hlen]
  simp

/-- Witness for C6: the freshly initialised state (empty queue), budget 3. -/
theorem claim_C6_poll_budget_witness :
    (0 ≤ (3 : Int)
      ∧ (∀ rx ∈ (init_buffers cfgS).rx_queue,
          0 ≤ rx.buf_no ∧ rx.buf_no < (cfgS.nDmaBufs : Int))
      ∧ (init_buffers cfgS).free_pool.length + (init_buffers cfgS).rx_queue.length
          ≤ cfgS.nDmaBufs)
    ∧ ((pico_eth_poll cfgS (init_buffers cfgS) 3 =
        some ((3 : Int) - (min (3 : Int).toNat (init_buffers cfgS).rx_queue.length : Nat),
              min (3 : Int).toNat (init_buffers cfgS).rx_queue.length,
              { init_buffers cfgS with
                  rx_queue := (init_buffers cfgS).rx_queue.drop
                    (min (3 : Int).toNat (init_buffers cfgS).rx_queue.length),
                  free_pool := (init_buffers cfgS).free_pool
                    ++ ((init_buffers cfgS).rx_queue.take
                        (min (3 : Int).toNat (init_buffers cfgS).rx_queue.length)).map
                        RxT.buf_no }))
      ∧ (pico_eth_poll (⟨8, 8, 8, 2048⟩ : Config)
            ⟨[5, 6, 7], [⟨0, 10⟩, ⟨1, 10⟩, ⟨2, 10⟩, ⟨3, 10⟩, ⟨4, 10⟩], 0⟩ 3
          = some (0, 3, (⟨[5, 6, 7, 0, 1, 2], [⟨3, 10⟩, ⟨4, 10⟩], 0⟩ : Buffers))
        ∧ pico_eth_poll (⟨8, 8, 8, 2048⟩ : Config)
            ⟨[5, 6, 7, 0, 1, 2], [⟨3, 10⟩, ⟨4, 10⟩], 0⟩ 5
          = some (3, 2, (⟨[5, 6, 7, 0, 1, 2, 3, 4], [], 0⟩ : Buffers)))) :=
  ⟨⟨by decide, by decide, by decide⟩,
   claim_C6_poll_budget cfgS (init_buffers cfgS) 3 (by decide) (by decide) (by decide)⟩

/-- C7: a receive completion reporting a frame spanning more than one buffer
returns every constituent buffer to the pool and drops the frame: the rx
queue — the only path to a stack delivery, which happens in
`pico_eth_poll` — is left unchanged, so the frame is never (even partially)
delivered. -/
theorem claim_C7_split_frame_dropped (cfg : Config) (b : Buffers)
    (cookies lens : List Int) (n : Nat)
    (hn : 1 < n) (hlen : cookies.length = n)
    (hin : ∀ c ∈ cookies, c < (cfg.nDmaBufs : Int))
    (hroom : b.free_pool.length + n ≤ cfg.nDmaBufs) :
    pico_rx_complete cfg b n cookies lens
      = some { b with free_pool := b.free_pool ++ cookies } := by
  subst hlen
  unfold pico_rx_complete
  rw [if_pos hn, free_loop_complete cookies b.free_pool hin hroom]

/-- Witness for C7: a two-buffer frame released back into an emptied pool. -/
theorem claim_C7_split_frame_dropped_witness :
    (1 < 2 ∧ ([0, 1] : List Int).length = 2
      ∧ (∀ c ∈ ([0, 1] : List Int), c < (cfgS.nDmaBufs : Int))
      ∧ (⟨[], [], 0⟩ : Buffers).free_pool.length + 2 ≤ cfgS.nDmaBufs)
    ∧ pico_rx_complete cfgS ⟨[], [], 0⟩ 2 [0, 1] [7, 8]
        = some { (⟨[], [], 0⟩ : Buffers) with
                   free_pool := (⟨[], [], 0⟩ : Buffers).free_pool ++ [0, 1] } :=
  ⟨⟨by decide, by decide, by decide, by decide⟩,
   claim_C7_split_frame_dropped cfgS ⟨[], [], 0⟩ [0, 1] [7, 8] 2
     (by decide) (by decide) (by decide) (by decide)⟩

/-- C8 counterexample: after one allocation from the freshly initialised
capacity-4 pool (handle 0 is out, free list `[1, 2, 3]`), releasing handle 1
— a handle NOT currently owned outside the pool — passes both assertions of
`free_dma_buf` and appends a duplicate index to the free list instead of
being rejected. -/
theorem claim_C8_counterexample :
    alloc_dma_buf (init_buffers cfgS).free_pool = (0, [1, 2, 3])
    ∧ free_dma_buf cfgS [1, 2, 3] 1 = some [1, 2, 3, 1]
    ∧ ¬ ([1, 2, 3, 1] : List Int).Nodup :=
  ⟨by decide, by decide, by decide⟩

/-- C8 (amended): `free_dma_buf` checks only that the index is below
`N_DMA_BUFS` and that the free list is not full; under exactly those two
conditions the release succeeds and appends the index — there is no
ownership or double-free check, so releasing a handle that is already free
creates a duplicate whenever the list is not full. -/
theorem claim_C8_release_unchecked (cfg : Config) (pool : List Int) (c : Int) :
    free_dma_buf cfg pool c = some (pool ++ [c])
      ↔ (c < (cfg.nDmaBufs : Int) ∧ pool.length ≠ cfg.nDmaBufs) := by
  constructor
  · intro h
    obtain ⟨_, h2, h3⟩ := free_dma_buf_some h
    exact ⟨h2, h3⟩
  · intro hc
    exact free_dma_buf_eq hc.1 hc.2

/-- C9: from the freshly initialised pool of capacity N, N consecutive
allocations succeed and return the pairwise-distinct handles `0 .. N-1` (all
non-negative, so none is the failure value), and a further allocation on the
now-empty pool returns the failure value `-1` without modifying the pool.
Concretely for capacity 4: four allocations yield `[0, 1, 2, 3]` and the
fifth yields `-1`. -/
theorem claim_C9_alloc_exhaustion (cfg : Config) :
    allocN cfg.nDmaBufs (init_buffers cfg).free_pool = (intRange cfg.nDmaBufs, [])
    ∧ (intRange cfg.nDmaBufs).Nodup
    ∧ (∀ h ∈ intRange cfg.nDmaBufs, 0 ≤ h)
    ∧ alloc_dma_buf [] = (-1, [])
    ∧ allocN 4 (init_buffers cfgS).free_pool = ([0, 1, 2, 3], [])
    ∧ allocN 5 (init_buffers cfgS).free_pool = ([0, 1, 2, 3, -1], []) := by
  refine ⟨?_, intRange_nodup _, ?_, rfl, by decide, by decide⟩
  · have h := allocN_length (intRange cfg.nDmaBufs)
    rw [intRange_length] at h
    simpa [init_buffers] using h
  · intro x hx
    rw [intRange] at hx
    obtain ⟨i, _, rfl⟩ := List.mem_map.mp hx
    exact Int.natCast_nonneg i

/-- C10: the receive-completion entry point is only safe for
`num_bufs ≥ 1`: called with `num_bufs = 0` (and correspondingly empty cookie
and length arrays) it takes the non-split branch and reads `cookies[0]` and
`lens[0]`, which are out of bounds — in the embedding the call aborts
(`none`) for every configuration and state. -/
theorem claim_C10_zero_bufs_unsafe (cfg : Config) (b : Buffers) :
    pico_rx_complete cfg b 0 [] [] = none := by
  unfold pico_rx_complete
  simp

end SosNet
